import Mathlib

/-!
Shallow embedding of the numeric/primality core of `text_prime_finder.py`.

Modelling conventions:
* Python `int` is `Int`.  All divisors appearing in the source are positive,
  and for a positive divisor Python's floor division `//` and floor modulus `%`
  coincide with Lean's `Int./` (E-division) and `Int.%` (E-modulus), so the
  translation uses the ordinary `/` and `%` on `Int`.
* Python text is a list of Unicode code points (`List Nat`); `ord`/`chr` are
  the identity on that representation, with `chr` valid exactly on
  `0 ≤ cp ≤ 0x10FFFF` (Python accepts the whole range including surrogates).
* The loaded PrimesDB blob `primesdb_data` is a byte list `List Nat`; the
  functions below model the state in which the index has been loaded (the
  download / cache path is outside the modelled core).
* `while` loops are translated to fuel-indexed recursive functions returning
  `Option`, where `none` means the given fuel was exhausted before the loop
  exited; `some r` faithfully reproduces the Python result `r`.  Loops whose
  iteration count is bounded by the code itself get that bound as their fuel.
-/

/-! ## Trial-division primality test (`is_prime`, lines 96-109) -/

/-- The `while i * i <= n` loop of `is_prime`, with `i` stepping by 6.
The loop needs at most `n.toNat` iterations (it stops once `i * i > n` and
`i` grows by 6 each round), so the `0` fuel case is unreachable for the fuel
`n.toNat` used by `is_prime`; see `trial_div_stable`. -/
def trial_div : Nat → Int → Int → Bool
  | 0, _, _ => true
  | fuel+1, n, i =>
    if i * i ≤ n then
      if n % i == 0 || n % (i + 2) == 0 then false
      else trial_div fuel n (i + 6)
    else true

/-- Model of `is_prime(n)`: the traditional trial-division check (lines 96-109). -/
def is_prime (n : Int) : Bool :=
  if n ≤ 1 then false
  else if n ≤ 3 then true
  else if n % 2 == 0 || n % 3 == 0 then false
  else trial_div n.toNat n 5

/-! ## PrimesDB-backed oracle (`is_prime_primesdb`, lines 49-94) -/

/-- The dictionary `{1: 0, 3: 1, 7: 2, 9: 3}` (line 83); the lookup is only
reached with keys in `{1, 3, 7, 9}`. -/
def bit_positions (last_digit : Int) : Nat :=
  if last_digit = 1 then 0
  else if last_digit = 3 then 1
  else if last_digit = 7 then 2
  else 3

/-- The address `address = int(decade / 2 + 0.5) - 1` (line 75) where `decade = number // 10`.
For the nonnegative decades that can reach this computation (the oracle has
already returned on every `number < 11`), `int(decade / 2 + 0.5)` equals
`(decade + 1) / 2` rounded down. -/
def pdb_address (number : Int) : Int :=
  (number / 10 + 1) / 2 - 1

/-- Bit offset inside the addressed byte: `bit_positions[last_digit]`, plus 4
when the decade is even (lines 83-88). -/
def pdb_bitpos (number : Int) : Nat :=
  bit_positions (number % 10) + (if (number / 10) % 2 = 0 then 4 else 0)

/-- Model of `is_prime_primesdb(number)` with the index blob `data` loaded
(lines 49-94, minus the download step). -/
def is_prime_primesdb (data : List Nat) (number : Int) : Bool :=
  if number < 2 then false
  else if number = 2 ∨ number = 3 ∨ number = 5 ∨ number = 7 then true
  else if number % 2 = 0 ∨ number % 3 = 0 ∨ number % 5 = 0 then false
  else if ¬(number % 10 = 1 ∨ number % 10 = 3 ∨ number % 10 = 7 ∨ number % 10 = 9) then false
  else
    let address := pdb_address number
    if address < 0 ∨ (data.length : Int) ≤ address then is_prime number
    else
      let byte_value := data.getD address.toNat 0
      ((byte_value >>> pdb_bitpos number) &&& 1) == 1

/-- The integer whose primality bit the PrimesDB format stores in byte `a`,
bit `j`: byte `a` packs the two decades `2a+1` (low nibble) and `2a+2`
(high nibble), with bit offsets 0-3 inside a nibble standing for last digits
1, 3, 7, 9. -/
def pdbDigit : Nat → Int
  | 0 => 1
  | 1 => 3
  | 2 => 7
  | _ => 9

/-- Integer encoded at byte `a`, bit `j` of the PrimesDB blob. -/
def pdbNumber (a j : Nat) : Int :=
  10 * (2 * (a : Int) + (if j < 4 then 1 else 2)) + pdbDigit (j % 4)

/-- A PrimesDB blob is well-formed when every stored bit agrees with the
trial-division test on the integer it encodes.  The real `0000.pdb` file is
external data (downloaded at startup), so the development is parameterised by
this format invariant. -/
def goodIndex (data : List Nat) : Prop :=
  ∀ a, a < data.length → ∀ j, j < 8 →
    ((((data.getD a 0) >>> j) &&& 1) == 1) = is_prime (pdbNumber a j)

instance goodIndexDecidable (data : List Nat) : Decidable (goodIndex data) := by
  unfold goodIndex
  exact inferInstance

/-! ## Nearest-prime scans (lines 111-167) -/

inductive Direction
  | larger
  | smaller

/-- The scan loop of `find_primes_near` (lines 139-143):
`while len(result) < count and current > 1 and current < 10**10`. -/
def scan_pdb_loop (p : Int → Bool) : Nat → Int → Nat → Int → List Int → Option (List Int)
  | 0, _, _, _, _ => none
  | fuel+1, current, count, step, result =>
    if result.length < count ∧ 1 < current ∧ current < 10000000000 then
      scan_pdb_loop p fuel (current + step) count step
        (if p current then result ++ [current] else result)
    else some result

/-- The scan loop of `find_primes_near_traditional` (lines 162-166):
`while len(result) < count and current > 1` - no `10**10` ceiling. -/
def scan_trad_loop (p : Int → Bool) : Nat → Int → Nat → Int → List Int → Option (List Int)
  | 0, _, _, _, _ => none
  | fuel+1, current, count, step, result =>
    if result.length < count ∧ 1 < current then
      scan_trad_loop p fuel (current + step) count step
        (if p current then result ++ [current] else result)
    else some result

/-- Step is `+1` for `'larger'`, `-1` otherwise (lines 129, 152). -/
def dirStep : Direction → Int
  | .larger => 1
  | .smaller => -1

/-- The scan starts one below for `'smaller'`, one above otherwise
(lines 131-136, 154-159). -/
def dirStart (number : Int) : Direction → Int
  | .larger => number + 1
  | .smaller => number - 1

/-- Model of `find_primes_near_traditional(number, count, direction)` (lines 146-167). -/
def find_primes_near_traditional (fuel : Nat) (number : Int) (count : Nat)
    (direction : Direction) : Option (List Int) :=
  scan_trad_loop is_prime fuel (dirStart number direction) count (dirStep direction) []

/-- Model of `find_primes_near(number, count, direction)` with the index `data` loaded
(lines 111-144).  Numbers above `1000000000` are delegated to the
traditional scan (line 122). -/
def find_primes_near (data : List Nat) (fuel : Nat) (number : Int) (count : Nat)
    (direction : Direction) : Option (List Int) :=
  if 1000000000 < number then find_primes_near_traditional fuel number count direction
  else
    scan_pdb_loop (is_prime_primesdb data) fuel (dirStart number direction) count
      (dirStep direction) []

/-- Stable insertion of a `(prime, distance)` pair by its distance component:
existing entries with a strictly smaller key stay in front, and among equal
keys the earlier entry keeps its place. -/
def insertByDistance (x : Int × Int) : List (Int × Int) → List (Int × Int)
  | [] => [x]
  | y :: ys => if y.2 < x.2 then y :: insertByDistance x ys else x :: y :: ys

/-- Model of `result.sort(key=lambda x: x[1])` (line 194): Python's `list.sort` is a
stable sort by the given key, and a stable sort result is uniquely determined,
so it is modelled by stable insertion sort. -/
def sortByDistance (l : List (Int × Int)) : List (Int × Int) :=
  l.foldr insertByDistance []

/-- Model of `find_closest_primes(number, count)` (lines 169-212), returning
`(prime, distance)` pairs.  The `try/except` wrapper is dropped: no modelled
operation can raise. -/
def find_closest_primes (data : List Nat) (fuel : Nat) (number : Int) (count : Nat) :
    Option (List (Int × Int)) :=
  match find_primes_near data fuel number count .larger,
        find_primes_near data fuel number count .smaller with
  | some larger_primes, some smaller_primes =>
    let result := larger_primes.map (fun p => (p, p - number)) ++
      smaller_primes.map (fun p => (p, number - p))
    some ((sortByDistance result).take count)
  | _, _ => none

/-! ## Text/number codec (lines 214-319) -/

/-- ASCII decimal digit. -/
def isAsciiDigit (c : Nat) : Bool := 48 ≤ c && c ≤ 57

/-- The guard `c.isalnum() and ord(c) < 128` (lines 224, 256): for code points below 128
Python's `isalnum` holds exactly on `0-9`, `A-Z`, `a-z`. -/
def isAsciiAlnum (c : Nat) : Bool :=
  (48 ≤ c && c ≤ 57) || (65 ≤ c && c ≤ 90) || (97 ≤ c && c ≤ 122)

/-- Model of `text.isdigit()` (lines 220, 252) for the texts in scope: nonempty and all
ASCII decimal digits.  (Exotic Unicode digit-property characters are outside
every claim considered here.) -/
def py_isdigit (s : List Nat) : Bool :=
  !s.isEmpty && s.all isAsciiDigit

/-- Per-character ASCII uppercasing, as `str.upper` acts on the
all-ASCII-alphanumeric texts that reach it (line 227). -/
def upperChar (c : Nat) : Nat :=
  if 97 ≤ c ∧ c ≤ 122 then c - 32 else c

/-- Value of `int(text)` for a nonempty all-digit text. -/
def decimalVal (s : List Nat) : Int :=
  s.foldl (fun (acc : Int) (c : Nat) => acc * 10 + ((c : Int) - 48)) 0

/-- The base-36 accumulation loop of `text_to_base36` (lines 226-236), over an
already-uppercased text: digits contribute their value, `A`-`Z` contribute
10-35, anything else is skipped. -/
def b36fold (s : List Nat) : Int :=
  s.foldl (fun (acc : Int) (c : Nat) =>
    if 48 ≤ c ∧ c ≤ 57 then acc * 36 + ((c : Int) - 48)
    else if 65 ≤ c ∧ c ≤ 90 then acc * 36 + ((c : Int) - 65 + 10)
    else acc) 0

/-- Model of `text_to_base36(text)` (lines 214-244). -/
def text_to_base36 (text : List Nat) : Int :=
  if text = [] then 0
  else if py_isdigit text then decimalVal text
  else if text.all isAsciiAlnum then b36fold (text.map upperChar)
  else text.foldl (fun (acc : Int) (c : Nat) => (acc * 31 + (c : Int)) % 1000000000000000) 0

/-- Decimal digits of a natural number, most significant first; fuel-indexed
(`n` itself is always enough fuel since `n / 10 < n` for `n > 0`). -/
def natDecAux : Nat → Nat → List Nat → List Nat
  | 0, _, acc => acc
  | fuel+1, n, acc => if n = 0 then acc else natDecAux fuel (n / 10) ((48 + n % 10) :: acc)

/-- Value of `str(number)` for an integer. -/
def int_to_text (n : Int) : List Nat :=
  if n < 0 then 45 :: (if (-n).toNat = 0 then [48] else natDecAux (-n).toNat (-n).toNat [])
  else if n.toNat = 0 then [48] else natDecAux n.toNat n.toNat []

/-- The local `valid_chars`: count of characters in `0-9`, `A-Z`, `a-z` (lines 262-264). -/
def countValid (s : List Nat) : Nat :=
  s.countP (fun c => (48 ≤ c && c ≤ 57) || (65 ≤ c && c ≤ 90) || (97 ≤ c && c ≤ 122))

/-- Character for one base-36 digit value (lines 273-277):
`str(digit)` below 10, else `chr(digit - 10 + ord('A'))`. -/
def dchar (digit : Int) : Nat :=
  if digit < 10 then 48 + digit.toNat else digit.toNat - 10 + 65

/-- The digit-extraction loop of `base36_to_text` (lines 272-281):
`while temp > 0 or len(result) < valid_chars`, prepending one digit per round
and breaking as soon as the result reaches `valid_chars` characters.  Each
round adds exactly one character and the break fires at `valid_chars`, so the
loop runs at most `valid_chars` rounds; that is the fuel used below. -/
def b36_loop : Nat → Int → List Nat → Nat → List Nat
  | 0, _, result, _ => result
  | fuel+1, temp, result, valid =>
    if temp > 0 ∨ result.length < valid then
      if valid ≤ (dchar (temp % 36) :: result).length then dchar (temp % 36) :: result
      else b36_loop fuel (temp / 36) (dchar (temp % 36) :: result) valid
    else result

/-- The zero-padding loop of `base36_to_text` (lines 284-285). -/
def padZeros (valid : Nat) (result : List Nat) : List Nat :=
  List.replicate (valid - result.length) 48 ++ result

/-- The all-ASCII-alphanumeric branch of `base36_to_text` (lines 256-287);
`countValid original_text` is the local `valid_chars`. -/
def alnum_branch (number : Int) (original_text : List Nat) : List Nat :=
  if countValid original_text = 0 then int_to_text number
  else padZeros (countValid original_text)
    (b36_loop (countValid original_text) number [] (countValid original_text))

/-- Perturbed code point before the `chr` attempt (lines 294-310); the local
`offset` is `(number % 100) - 50` in the CJK case, `(number % 20) - 10`
otherwise, and `new_code` is `cp + offset`, written out inline. -/
def perturb_code (number : Int) (cp : Nat) : Int :=
  if 0x4E00 ≤ cp ∧ cp ≤ 0x9FFF then
    if (cp : Int) + (number % 100 - 50) < 0x4E00 then
      0x4E00 + ((cp : Int) + (number % 100 - 50)) % 100
    else if (cp : Int) + (number % 100 - 50) > 0x9FFF then
      0x9FFF - ((cp : Int) + (number % 100 - 50)) % 100
    else (cp : Int) + (number % 100 - 50)
  else (cp : Int) + (number % 20 - 10)

/-- One character of the perturbation branch, including the
`try: chr(new_code) except: original` step (lines 312-317); Python's `chr`
accepts exactly `0 ≤ new_code ≤ 0x10FFFF`. -/
def perturb_char (number : Int) (cp : Nat) : Nat :=
  if 0 ≤ perturb_code number cp ∧ perturb_code number cp ≤ 0x10FFFF then
    (perturb_code number cp).toNat
  else cp

/-- Model of `base36_to_text(number, original_text)` (lines 246-319). -/
def base36_to_text (number : Int) (original_text : List Nat) : List Nat :=
  if original_text = [] then int_to_text number
  else if py_isdigit original_text then int_to_text number
  else if original_text.all isAsciiAlnum then alnum_branch number original_text
  else original_text.map (perturb_char number)

/-! ## Combination sampler (`generate_random_combinations`, lines 419-462) -/

structure Replacement where
  prime : Int
  text : List Nat
  distance : Int
  direction : Nat

structure WordInfo where
  original : List Nat
  numeric : Int
  is_prime : Bool
  replacements : List Replacement

/-- One entry of a combination; `distance`/`direction` are only present in the
substituted case and are omitted here (no claim mentions them). -/
structure CombItem where
  original : List Nat
  replacement : List Nat
  numeric : Int
  is_original : Bool

/-- Model of `generate_random_combinations(words, max_combinations)` (lines 419-462).
`pick i j reps` models the call to `random.choice(reps)` made for word `j`
while building combination `i`; quantifying over `pick` covers every possible
random outcome. -/
def generate_random_combinations (pick : Nat → Nat → List Replacement → Replacement)
    (words : List WordInfo) (max_combinations : Nat) : List (List CombItem) :=
  if words.isEmpty then []
  else
    (List.range (min max_combinations 10)).map (fun ci =>
      words.mapIdx (fun wi word =>
        if word.is_prime then
          ⟨word.original, word.original, word.numeric, true⟩
        else if !word.replacements.isEmpty then
          let replacement := pick ci wi word.replacements
          ⟨word.original, replacement.text, replacement.prime, false⟩
        else
          ⟨word.original, word.original, word.numeric, true⟩))

/-! ## Reference lists for the scan intervals -/

/-- The integers `a, a+1, ..., b-1` (empty when `b ≤ a`). -/
def intRange (a b : Int) : List Int :=
  (List.range (b - a).toNat).map (fun (k : Nat) => a + (k : Int))

/-- The integers `a, a-1, ..., 2` (empty when `a ≤ 1`). -/
def intRangeDown (a : Int) : List Int :=
  (List.range (a - 1).toNat).map (fun (k : Nat) => a - (k : Int))

/-- Reference base-36 rendering: the lowest `k` base-36 digits of `t`,
most significant first. -/
def b36render : Nat → Int → List Nat
  | 0, _ => []
  | k+1, t => b36render k (t / 36) ++ [dchar (t % 36)]

/-! ## Fuel adequacy for the trial-division loop -/

lemma trial_div_stable : ∀ (fuel : Nat) (n i : Int), 1 ≤ i →
    (n + 1 - i).toNat ≤ 6 * fuel → trial_div fuel n i = trial_div (fuel + 1) n i := by
  intro fuel
  induction fuel with
  | zero =>
    intro n i hi hb
    have hni : n < i := by omega
    have hii : i * 1 ≤ i * i := mul_le_mul_of_nonneg_left hi (by omega)
    rw [mul_one] at hii
    have hguard : ¬ i * i ≤ n := by
      intro hc
      linarith
    show true = trial_div 1 n i
    simp only [trial_div]
    rw [if_neg hguard]
  | succ fuel ih =>
    intro n i hi hb
    simp only [trial_div]
    by_cases hguard : i * i ≤ n
    · rw [if_pos hguard, if_pos hguard]
      by_cases hdiv : (n % i == 0 || n % (i + 2) == 0) = true
      · rw [if_pos hdiv, if_pos hdiv]
      · rw [if_neg hdiv, if_neg hdiv]
        exact ih n (i + 6) (by omega) (by omega)
    · rw [if_neg hguard, if_neg hguard]

lemma trial_div_fuel_ge : ∀ (d fuel : Nat) (n i : Int), 1 ≤ i →
    (n + 1 - i).toNat ≤ 6 * fuel → trial_div (fuel + d) n i = trial_div fuel n i := by
  intro d
  induction d with
  | zero => intro fuel n i _ _; rfl
  | succ d ih =>
    intro fuel n i hi hb
    have hstep : trial_div (fuel + d + 1) n i = trial_div (fuel + d) n i :=
      (trial_div_stable (fuel + d) n i hi (by omega)).symm
    calc trial_div (fuel + (d + 1)) n i = trial_div (fuel + d + 1) n i := rfl
      _ = trial_div (fuel + d) n i := hstep
      _ = trial_div fuel n i := ih fuel n i hi hb

/-- The loop fuel `n.toNat` passed by `is_prime` is enough: every larger fuel
gives the same verdict, so the fuel-exhaustion default of `trial_div` is
unreachable from `is_prime`. -/
lemma is_prime_fuel_irrelevant (n : Int) (fuel : Nat) (_h4 : 4 ≤ n)
    (hf : n.toNat ≤ fuel) : trial_div fuel n 5 = trial_div n.toNat n 5 := by
  obtain ⟨d, rfl⟩ : ∃ d, fuel = n.toNat + d := ⟨fuel - n.toNat, by omega⟩
  exact trial_div_fuel_ge d n.toNat n 5 (by omega) (by omega)

/-! ## Lemmas: the oracle agrees with trial division on a well-formed index -/

lemma is_prime_of_lt_two {n : Int} (h : n < 2) : is_prime n = false := by
  unfold is_prime
  rw [if_pos (by omega)]

lemma is_prime_even {n : Int} (h2 : 2 ≤ n) (hne : n ≠ 2) (h : n % 2 = 0) :
    is_prime n = false := by
  unfold is_prime
  rw [if_neg (by omega), if_neg (by omega), if_pos]
  simp only [Bool.or_eq_true, beq_iff_eq]
  exact Or.inl h

lemma is_prime_mult3 {n : Int} (h2 : 2 ≤ n) (hne : n ≠ 3) (h : n % 3 = 0) :
    is_prime n = false := by
  unfold is_prime
  by_cases h1 : n ≤ 3
  · omega
  · rw [if_neg (by omega), if_neg h1, if_pos]
    simp only [Bool.or_eq_true, beq_iff_eq]
    exact Or.inr h

lemma is_prime_mult5 {n : Int} (h2 : 2 ≤ n) (hne : n ≠ 5) (h : n % 5 = 0)
    (ho : n % 2 ≠ 0) (h3 : n % 3 ≠ 0) : is_prime n = false := by
  have h25 : 25 ≤ n := by omega
  unfold is_prime
  rw [if_neg (by omega), if_neg (by omega),
    if_neg (by simp only [Bool.or_eq_true, beq_iff_eq]; omega)]
  obtain ⟨m, hm⟩ : ∃ m, n.toNat = m + 1 := ⟨n.toNat - 1, by omega⟩
  rw [hm]
  unfold trial_div
  rw [if_pos (by omega : (5 : Int) * 5 ≤ n), if_pos]
  simp only [Bool.or_eq_true, beq_iff_eq]
  exact Or.inl h

lemma bit_positions_lt (d : Int) : bit_positions d < 4 := by
  unfold bit_positions
  split_ifs <;> omega

lemma pdbDigit_bit_positions {l : Int} (hl : l = 1 ∨ l = 3 ∨ l = 7 ∨ l = 9) :
    pdbDigit (bit_positions l) = l := by
  rcases hl with rfl | rfl | rfl | rfl <;> rfl

lemma pdb_bitpos_lt (n : Int) : pdb_bitpos n < 8 := by
  have := bit_positions_lt (n % 10)
  unfold pdb_bitpos
  split_ifs <;> omega

lemma pdb_roundtrip {n : Int} (h2 : 2 ≤ n) (ho : n % 2 ≠ 0) (h3 : n % 3 ≠ 0)
    (h5 : n % 5 ≠ 0) (h7 : n ≠ 7) :
    0 ≤ pdb_address n ∧ pdbNumber (pdb_address n).toNat (pdb_bitpos n) = n := by
  have h11 : 11 ≤ n := by
    have hcases : n = 2 ∨ n = 3 ∨ n = 4 ∨ n = 5 ∨ n = 6 ∨ n = 7 ∨ n = 8 ∨ n = 9 ∨
        n = 10 ∨ 11 ≤ n := by omega
    rcases hcases with rfl | rfl | rfl | rfl | rfl | rfl | rfl | rfl | rfl | h <;> omega
  have hl : n % 10 = 1 ∨ n % 10 = 3 ∨ n % 10 = 7 ∨ n % 10 = 9 := by omega
  have hblt := bit_positions_lt (n % 10)
  have haddr : pdb_address n = (n / 10 + 1) / 2 - 1 := rfl
  have hpos : 0 ≤ pdb_address n := by rw [haddr]; omega
  refine ⟨hpos, ?_⟩
  have hcast : ((pdb_address n).toNat : Int) = pdb_address n := Int.toNat_of_nonneg hpos
  have hpar : (n / 10) % 2 = 0 ∨ (n / 10) % 2 = 1 := by omega
  rcases hpar with hpar | hpar
  · -- even decade: high nibble, bit position gets +4
    have hbp : pdb_bitpos n = bit_positions (n % 10) + 4 := by
      unfold pdb_bitpos
      rw [if_pos hpar]
    unfold pdbNumber
    rw [hbp, if_neg (by omega), Nat.add_mod_right, Nat.mod_eq_of_lt hblt,
      pdbDigit_bit_positions hl, hcast, haddr]
    omega
  · -- odd decade: low nibble
    have hbp : pdb_bitpos n = bit_positions (n % 10) := by
      unfold pdb_bitpos
      rw [if_neg (by omega)]
      omega
    unfold pdbNumber
    rw [hbp, if_pos hblt, Nat.mod_eq_of_lt hblt,
      pdbDigit_bit_positions hl, hcast, haddr]
    omega

theorem oracle_eq_is_prime {data : List Nat} (hgood : goodIndex data) (n : Int) :
    is_prime_primesdb data n = is_prime n := by
  unfold is_prime_primesdb
  by_cases hlt : n < 2
  · rw [if_pos hlt, is_prime_of_lt_two hlt]
  rw [if_neg hlt]
  by_cases hsmall : n = 2 ∨ n = 3 ∨ n = 5 ∨ n = 7
  · rw [if_pos hsmall]
    rcases hsmall with rfl | rfl | rfl | rfl <;> rfl
  rw [if_neg hsmall]
  by_cases hdiv : n % 2 = 0 ∨ n % 3 = 0 ∨ n % 5 = 0
  · rw [if_pos hdiv]
    rcases hdiv with h | h | h
    · exact (is_prime_even (by omega) (by omega) h).symm
    · by_cases ho : n % 2 = 0
      · exact (is_prime_even (by omega) (by omega) ho).symm
      · exact (is_prime_mult3 (by omega) (by omega) h).symm
    · by_cases ho : n % 2 = 0
      · exact (is_prime_even (by omega) (by omega) ho).symm
      by_cases h3 : n % 3 = 0
      · exact (is_prime_mult3 (by omega) (by omega) h3).symm
      · exact (is_prime_mult5 (by omega) (by omega) h ho h3).symm
  rw [if_neg hdiv]
  rw [if_neg (by omega)]
  by_cases hrange : pdb_address n < 0 ∨ (data.length : Int) ≤ pdb_address n
  · rw [if_pos hrange]
  · rw [if_neg hrange]
    push_neg at hrange
    have e2 : (2 : Int) ≤ n := by omega
    have eo : n % 2 ≠ 0 := by omega
    have e3 : n % 3 ≠ 0 := by omega
    have e5 : n % 5 ≠ 0 := by omega
    have e7 : n ≠ 7 := by omega
    obtain ⟨hpos, hround⟩ := pdb_roundtrip e2 eo e3 e5 e7
    have hlen : (pdb_address n).toNat < data.length := by omega
    have := hgood (pdb_address n).toNat hlen (pdb_bitpos n) (pdb_bitpos_lt n)
    rw [hround] at this
    exact this

/-! ## Lemmas about the scan loops -/

lemma scan_pdb_congr {p q : Int → Bool} (h : ∀ x, p x = q x) :
    ∀ fuel current count step result,
      scan_pdb_loop p fuel current count step result =
        scan_pdb_loop q fuel current count step result := by
  intro fuel
  induction fuel with
  | zero => intro current count step result; rfl
  | succ fuel ih =>
    intro current count step result
    simp only [scan_pdb_loop]
    split
    · rw [h current, ih]
    · rfl

lemma scan_pdb_some_mem {p : Int → Bool} :
    ∀ fuel current count step result res,
      scan_pdb_loop p fuel current count step result = some res →
      ∀ x ∈ res, x ∈ result ∨ (1 < x ∧ p x = true) := by
  intro fuel
  induction fuel with
  | zero => intro current count step result res h; exact absurd h (by simp [scan_pdb_loop])
  | succ fuel ih =>
    intro current count step result res h x hx
    rw [scan_pdb_loop] at h
    split at h
    · rename_i hguard
      rcases ih _ _ _ _ _ h x hx with hmem | hgood
      · by_cases hp : p current = true
        · rw [if_pos hp] at hmem
          rcases List.mem_append.mp hmem with hmem | hmem
          · exact Or.inl hmem
          · simp only [List.mem_singleton] at hmem
            subst hmem
            exact Or.inr ⟨hguard.2.1, hp⟩
        · rw [if_neg hp] at hmem
          exact Or.inl hmem
      · exact Or.inr hgood
    · obtain rfl : result = res := by injection h
      exact Or.inl hx

lemma scan_trad_some_mem {p : Int → Bool} :
    ∀ fuel current count step result res,
      scan_trad_loop p fuel current count step result = some res →
      ∀ x ∈ res, x ∈ result ∨ (1 < x ∧ p x = true) := by
  intro fuel
  induction fuel with
  | zero => intro current count step result res h; exact absurd h (by simp [scan_trad_loop])
  | succ fuel ih =>
    intro current count step result res h x hx
    rw [scan_trad_loop] at h
    split at h
    · rename_i hguard
      rcases ih _ _ _ _ _ h x hx with hmem | hgood
      · by_cases hp : p current = true
        · rw [if_pos hp] at hmem
          rcases List.mem_append.mp hmem with hmem | hmem
          · exact Or.inl hmem
          · simp only [List.mem_singleton] at hmem
            subst hmem
            exact Or.inr ⟨hguard.2, hp⟩
        · rw [if_neg hp] at hmem
          exact Or.inl hmem
      · exact Or.inr hgood
    · obtain rfl : result = res := by injection h
      exact Or.inl hx

lemma scan_trad_up_some_count {p : Int → Bool} :
    ∀ fuel current count result res,
      1 < current →
      scan_trad_loop p fuel current count 1 result = some res →
      count ≤ res.length := by
  intro fuel
  induction fuel with
  | zero => intro current count result res _ h; exact absurd h (by simp [scan_trad_loop])
  | succ fuel ih =>
    intro current count result res hcur h
    rw [scan_trad_loop] at h
    split at h
    · exact ih _ _ _ _ (by omega) h
    · rename_i hguard
      obtain rfl : result = res := by injection h
      rw [Classical.not_and_iff_or_not_not] at hguard
      rcases hguard with hguard | hguard
      · omega
      · omega

lemma scan_pdb_up_isSome {p : Int → Bool} :
    ∀ fuel current count result,
      (10000000000 - current).toNat < fuel →
      (scan_pdb_loop p fuel current count 1 result).isSome := by
  intro fuel
  induction fuel with
  | zero => intro current count result h; omega
  | succ fuel ih =>
    intro current count result h
    rw [scan_pdb_loop]
    split
    · rename_i hguard
      exact ih _ _ _ (by omega)
    · rfl

lemma scan_pdb_up_some_lt {p : Int → Bool} :
    ∀ fuel current count result res,
      scan_pdb_loop p fuel current count 1 result = some res →
      (∀ x ∈ result, x < 10000000000) →
      ∀ x ∈ res, x < 10000000000 := by
  intro fuel
  induction fuel with
  | zero => intro current count result res h; exact absurd h (by simp [scan_pdb_loop])
  | succ fuel ih =>
    intro current count result res h hacc
    rw [scan_pdb_loop] at h
    split at h
    · rename_i hguard
      refine ih _ _ _ _ h ?_
      intro x hx
      by_cases hp : p current = true
      · rw [if_pos hp] at hx
        rcases List.mem_append.mp hx with hx | hx
        · exact hacc x hx
        · simp only [List.mem_singleton] at hx
          subst hx
          exact hguard.2.2
      · rw [if_neg hp] at hx
        exact hacc x hx
    · obtain rfl : result = res := by injection h
      exact hacc

/-! ## The scan loops compute take-of-filter over their traversal intervals -/

lemma intRange_nil {a b : Int} (h : b ≤ a) : intRange a b = [] := by
  unfold intRange
  have h0 : (b - a).toNat = 0 := by omega
  rw [h0]
  rfl

lemma intRange_cons {a b : Int} (h : a < b) : intRange a b = a :: intRange (a + 1) b := by
  unfold intRange
  have h1 : (b - a).toNat = (b - (a + 1)).toNat + 1 := by omega
  rw [h1, List.range_succ_eq_map, List.map_cons, List.map_map]
  congr 1
  · norm_num
  · apply List.map_congr_left
    intro k _
    simp only [Function.comp_apply, Nat.succ_eq_add_one]
    push_cast
    ring

lemma intRangeDown_nil {a : Int} (h : a ≤ 1) : intRangeDown a = [] := by
  unfold intRangeDown
  have h0 : (a - 1).toNat = 0 := by omega
  rw [h0]
  rfl

lemma intRangeDown_cons {a : Int} (h : 2 ≤ a) : intRangeDown a = a :: intRangeDown (a - 1) := by
  unfold intRangeDown
  have h1 : (a - 1).toNat = (a - 1 - 1).toNat + 1 := by omega
  rw [h1, List.range_succ_eq_map, List.map_cons, List.map_map]
  congr 1
  · norm_num
  · apply List.map_congr_left
    intro k _
    simp only [Function.comp_apply, Nat.succ_eq_add_one]
    push_cast
    ring

lemma scan_pdb_up_some_eq {p : Int → Bool} :
    ∀ fuel count current acc res,
      1 < current →
      scan_pdb_loop p fuel current count 1 acc = some res →
      res = acc ++ ((intRange current 10000000000).filter p).take (count - acc.length) := by
  intro fuel
  induction fuel with
  | zero => intro count current acc res _ h; exact absurd h (by simp [scan_pdb_loop])
  | succ fuel ih =>
    intro count current acc res hcur h
    rw [scan_pdb_loop] at h
    split at h
    · rename_i hguard
      obtain ⟨hlen, hc1, hceil⟩ := hguard
      by_cases hp : p current = true
      · rw [if_pos hp] at h
        have hrec := ih _ _ _ _ (by omega) h
        rw [hrec, intRange_cons hceil, List.filter_cons, if_pos hp]
        have hlen1 : (acc ++ [current]).length = acc.length + 1 := by simp
        rw [hlen1, show count - acc.length = (count - (acc.length + 1)) + 1 by omega,
          List.take_succ_cons, ← List.append_cons]
      · rw [if_neg hp] at h
        have hrec := ih _ _ _ _ (by omega) h
        rw [hrec, intRange_cons hceil, List.filter_cons, if_neg hp]
    · rename_i hguard
      obtain rfl : acc = res := by injection h
      rw [Classical.not_and_iff_or_not_not, Classical.not_and_iff_or_not_not] at hguard
      rcases hguard with hguard | hguard | hguard
      · have h0 : count - acc.length = 0 := by omega
        rw [h0, List.take_zero, List.append_nil]
      · omega
      · rw [intRange_nil (by omega), List.filter_nil, List.take_nil, List.append_nil]

lemma scan_pdb_down_some_eq {p : Int → Bool} :
    ∀ fuel count current acc res,
      current < 10000000000 →
      scan_pdb_loop p fuel current count (-1) acc = some res →
      res = acc ++ ((intRangeDown current).filter p).take (count - acc.length) := by
  intro fuel
  induction fuel with
  | zero => intro count current acc res _ h; exact absurd h (by simp [scan_pdb_loop])
  | succ fuel ih =>
    intro count current acc res hceil h
    rw [scan_pdb_loop] at h
    split at h
    · rename_i hguard
      obtain ⟨hlen, hcur, _⟩ := hguard
      by_cases hp : p current = true
      · rw [if_pos hp] at h
        have hrec := ih _ _ _ _ (by omega) h
        rw [show current + -1 = current - 1 by ring] at hrec
        rw [hrec, @intRangeDown_cons current (by omega), List.filter_cons, if_pos hp]
        have hlen1 : (acc ++ [current]).length = acc.length + 1 := by simp
        rw [hlen1, show count - acc.length = (count - (acc.length + 1)) + 1 by omega,
          List.take_succ_cons, ← List.append_cons]
      · rw [if_neg hp] at h
        have hrec := ih _ _ _ _ (by omega) h
        rw [show current + -1 = current - 1 by ring] at hrec
        rw [hrec, @intRangeDown_cons current (by omega), List.filter_cons, if_neg hp]
    · rename_i hguard
      obtain rfl : acc = res := by injection h
      rw [Classical.not_and_iff_or_not_not, Classical.not_and_iff_or_not_not] at hguard
      rcases hguard with hguard | hguard | hguard
      · have h0 : count - acc.length = 0 := by omega
        rw [h0, List.take_zero, List.append_nil]
      · rw [intRangeDown_nil (by omega), List.filter_nil, List.take_nil, List.append_nil]
      · omega

/-! ## The distance sort is a permutation -/

lemma insertByDistance_perm (x : Int × Int) :
    ∀ l : List (Int × Int), (insertByDistance x l).Perm (x :: l) := by
  intro l
  induction l with
  | nil => exact List.Perm.refl _
  | cons y ys ih =>
    rw [insertByDistance]
    split
    · exact (ih.cons y).trans (List.Perm.swap x y ys)
    · exact List.Perm.refl _

lemma sortByDistance_perm (l : List (Int × Int)) : (sortByDistance l).Perm l := by
  induction l with
  | nil => exact List.Perm.refl _
  | cons x xs ih =>
    have : sortByDistance (x :: xs) = insertByDistance x (sortByDistance xs) := rfl
    rw [this]
    exact (insertByDistance_perm x (sortByDistance xs)).trans (ih.cons x)

/-! ## Base-36 codec lemmas -/

/-- Characters the digit loop produces and the encoder consumes:
ASCII digits and uppercase letters. -/
def isB36 (c : Nat) : Prop := (48 ≤ c ∧ c ≤ 57) ∨ (65 ≤ c ∧ c ≤ 90)

/-- Digit value of a base-36 character, matching the encoder fold. -/
def b36val (c : Nat) : Int :=
  if 48 ≤ c ∧ c ≤ 57 then (c : Int) - 48 else (c : Int) - 65 + 10

lemma b36val_bounds {c : Nat} (h : isB36 c) : 0 ≤ b36val c ∧ b36val c < 36 := by
  unfold b36val
  rcases h with h | h
  · rw [if_pos h]; omega
  · by_cases hd : 48 ≤ c ∧ c ≤ 57
    · rw [if_pos hd]; omega
    · rw [if_neg hd]; omega

lemma dchar_b36val {c : Nat} (h : isB36 c) : dchar (b36val c) = c := by
  unfold dchar b36val
  rcases h with h | h
  · rw [if_pos h, if_pos (by omega)]
    omega
  · have hd : ¬(48 ≤ c ∧ c ≤ 57) := by omega
    rw [if_neg hd, if_neg (by omega)]
    omega

lemma b36val_dchar {v : Int} (h0 : 0 ≤ v) (h36 : v < 36) :
    isB36 (dchar v) ∧ b36val (dchar v) = v := by
  unfold dchar b36val isB36
  by_cases h10 : v < 10
  · rw [if_pos h10]
    refine ⟨Or.inl (by omega), ?_⟩
    rw [if_pos (by omega)]
    omega
  · rw [if_neg h10]
    refine ⟨Or.inr (by omega), ?_⟩
    rw [if_neg (by omega)]
    omega

lemma b36fold_append {s : List Nat} {c : Nat} (h : isB36 c) :
    b36fold (s ++ [c]) = b36fold s * 36 + b36val c := by
  unfold b36fold b36val
  rw [List.foldl_append]
  simp only [List.foldl_cons, List.foldl_nil]
  rcases h with h | h
  · rw [if_pos h, if_pos h]
  · have hd : ¬(48 ≤ c ∧ c ≤ 57) := by omega
    rw [if_neg hd, if_pos h, if_neg hd]

lemma b36fold_bounds : ∀ s : List Nat, (∀ c ∈ s, isB36 c) →
    0 ≤ b36fold s ∧ b36fold s < 36 ^ s.length := by
  intro s
  induction s using List.reverseRecOn with
  | nil => intro _; constructor <;> norm_num [b36fold]
  | append_singleton s c ih =>
    intro h
    have hc : isB36 c := h c (by simp)
    have hs := ih (fun x hx => h x (by simp [hx]))
    have hv := b36val_bounds hc
    rw [b36fold_append hc, List.length_append, List.length_singleton, pow_succ]
    have hpow : (0 : Int) < 36 ^ s.length := by positivity
    constructor <;> nlinarith [hs.1, hs.2, hv.1, hv.2]

lemma b36render_length : ∀ (k : Nat) (t : Int), (b36render k t).length = k := by
  intro k
  induction k with
  | zero => intro t; rfl
  | succ k ih => intro t; rw [b36render, List.length_append, ih, List.length_singleton]

lemma b36render_fold : ∀ s : List Nat, (∀ c ∈ s, isB36 c) →
    b36render s.length (b36fold s) = s := by
  intro s
  induction s using List.reverseRecOn with
  | nil => intro _; rfl
  | append_singleton s c ih =>
    intro h
    have hc : isB36 c := h c (by simp)
    have hsub : ∀ x ∈ s, isB36 x := fun x hx => h x (by simp [hx])
    have hv := b36val_bounds hc
    have hfb := (b36fold_bounds s hsub).1
    rw [List.length_append, List.length_singleton, b36fold_append hc, b36render]
    have hdiv : (b36fold s * 36 + b36val c) / 36 = b36fold s := by
      rw [add_comm, Int.add_mul_ediv_right _ _ (by norm_num : (36 : Int) ≠ 0),
        Int.ediv_eq_zero_of_lt hv.1 hv.2, zero_add]
    have hmod : (b36fold s * 36 + b36val c) % 36 = b36val c := by
      rw [add_comm, Int.add_mul_emod_self, Int.emod_eq_of_lt hv.1 hv.2]
    rw [hdiv, hmod, dchar_b36val hc, ih hsub]

lemma b36_loop_eq_render : ∀ (k fuel : Nat) (temp : Int) (acc : List Nat) (valid : Nat),
    acc.length + (k + 1) = valid → k + 1 ≤ fuel →
    b36_loop fuel temp acc valid = b36render (k + 1) temp ++ acc := by
  intro k
  induction k with
  | zero =>
    intro fuel temp acc valid hv hf
    obtain ⟨f, rfl⟩ : ∃ f, fuel = f + 1 := ⟨fuel - 1, by omega⟩
    rw [b36_loop, if_pos (Or.inr (by omega)), if_pos (by simp; omega)]
    rw [b36render, b36render]
    simp
  | succ k ih =>
    intro fuel temp acc valid hv hf
    obtain ⟨f, rfl⟩ : ∃ f, fuel = f + 1 := ⟨fuel - 1, by omega⟩
    rw [b36_loop, if_pos (Or.inr (by omega)), if_neg (by simp; omega)]
    rw [ih f (temp / 36) _ valid (by simp; omega) (by omega)]
    rw [show b36render (k + 1 + 1) temp =
      b36render (k + 1) (temp / 36) ++ [dchar (temp % 36)] from rfl]
    simp

lemma padZeros_of_length {valid : Nat} {r : List Nat} (h : r.length = valid) :
    padZeros valid r = r := by
  unfold padZeros
  rw [h, Nat.sub_self]
  rfl

lemma countValid_eq_length {s : List Nat} (h : ∀ c ∈ s, isAsciiAlnum c = true) :
    countValid s = s.length := by
  unfold countValid
  rw [List.countP_eq_length]
  intro c hc
  have hx := h c hc
  unfold isAsciiAlnum at hx
  exact hx

lemma upperChar_b36 {c : Nat} (h : isAsciiAlnum c = true) : isB36 (upperChar c) := by
  unfold isAsciiAlnum at h
  simp only [Bool.or_eq_true, Bool.and_eq_true, decide_eq_true_eq] at h
  unfold upperChar isB36
  split_ifs <;> omega

lemma py_isdigit_false {o : List Nat} {c : Nat} (hc : c ∈ o) (h : isAsciiDigit c = false) :
    py_isdigit o = false := by
  unfold py_isdigit
  have : o.all isAsciiDigit = false := by
    rw [List.all_eq_false]
    exact ⟨c, hc, by simp [h]⟩
  rw [this, Bool.and_false]

lemma text_to_base36_alnum {o : List Nat} (hne : o ≠ [])
    (hd : py_isdigit o = false) (hall : o.all isAsciiAlnum = true) :
    text_to_base36 o = b36fold (o.map upperChar) := by
  unfold text_to_base36
  rw [if_neg hne, if_neg (by simp [hd]), if_pos hall]

lemma base36_to_text_alnum {number : Int} {o : List Nat} (hne : o ≠ [])
    (hd : py_isdigit o = false) (hall : o.all isAsciiAlnum = true) :
    base36_to_text number o = alnum_branch number o := by
  unfold base36_to_text
  rw [if_neg hne, if_neg (by simp [hd]), if_pos hall]

lemma alnum_branch_eq_render {number : Int} {o : List Nat} (hne : o ≠ [])
    (hall : ∀ c ∈ o, isAsciiAlnum c = true) :
    alnum_branch number o = b36render o.length number := by
  unfold alnum_branch
  have hcv : countValid o = o.length := countValid_eq_length hall
  have hlen : o.length ≠ 0 := by
    cases o with
    | nil => exact absurd rfl hne
    | cons a l => simp
  rw [hcv, if_neg hlen]
  obtain ⟨k, hk⟩ : ∃ k, o.length = k + 1 := ⟨o.length - 1, by omega⟩
  rw [hk, b36_loop_eq_render k (k + 1) number [] (k + 1) (by simp) (le_refl _),
    List.append_nil]
  exact padZeros_of_length (b36render_length (k + 1) number)

/-! ## Perturbation branch lemmas -/

lemma base36_to_text_perturb {number : Int} {o : List Nat} (hne : o ≠ [])
    (hd : py_isdigit o = false) (hall : o.all isAsciiAlnum = false) :
    base36_to_text number o = o.map (perturb_char number) := by
  unfold base36_to_text
  rw [if_neg hne, if_neg (by simp [hd]), if_neg (by simp [hall])]

lemma perturb_char_cjk (number : Int) {cp : Nat} (h1 : 0x4E00 ≤ cp) (h2 : cp ≤ 0x9FFF) :
    0x4E00 ≤ perturb_char number cp ∧ perturb_char number cp ≤ 0x9FFF := by
  have hm0 : 0 ≤ number % 100 := Int.emod_nonneg number (by norm_num)
  have hm1 : number % 100 < 100 := Int.emod_lt_of_pos number (by norm_num)
  have hcjk : 0x4E00 ≤ cp ∧ cp ≤ 0x9FFF := ⟨h1, h2⟩
  unfold perturb_char perturb_code
  rw [if_pos hcjk]
  by_cases hlo : (cp : Int) + (number % 100 - 50) < 0x4E00
  · rw [if_pos hlo]
    have e0 : 0 ≤ ((cp : Int) + (number % 100 - 50)) % 100 := Int.emod_nonneg _ (by norm_num)
    have e1 : ((cp : Int) + (number % 100 - 50)) % 100 < 100 := Int.emod_lt_of_pos _ (by norm_num)
    rw [if_pos (by omega)]
    omega
  · rw [if_neg hlo]
    by_cases hhi : (cp : Int) + (number % 100 - 50) > 0x9FFF
    · rw [if_pos hhi]
      have e0 : 0 ≤ ((cp : Int) + (number % 100 - 50)) % 100 := Int.emod_nonneg _ (by norm_num)
      have e1 : ((cp : Int) + (number % 100 - 50)) % 100 < 100 := Int.emod_lt_of_pos _ (by norm_num)
      rw [if_pos (by omega)]
      omega
    · rw [if_neg hhi, if_pos (by omega)]
      omega

lemma perturb_char_invalid {number : Int} {cp : Nat}
    (h : perturb_code number cp < 0 ∨ 0x10FFFF < perturb_code number cp) :
    perturb_char number cp = cp := by
  unfold perturb_char
  rw [if_neg (by omega)]

lemma getD_map_of_lt {α β : Type} (f : α → β) (l : List α) (i : Nat) (d : α) (e : β)
    (h : i < l.length) : (l.map f).getD i e = f (l.getD i d) := by
  rw [List.getD_eq_getElem l d h, List.getD_eq_getElem _ e (by simpa using h),
    List.getElem_map]

lemma int_emod_pow_succ (t : Int) (k : Nat) :
    t % 36 ^ (k + 1) = (t / 36 % 36 ^ k) * 36 + t % 36 := by
  have hpow : (0 : Int) < 36 ^ k := by positivity
  have h1 : 0 ≤ t / 36 % 36 ^ k := Int.emod_nonneg _ (by positivity)
  have h2 : t / 36 % 36 ^ k < 36 ^ k := Int.emod_lt_of_pos _ hpow
  have h3 : 0 ≤ t % 36 := Int.emod_nonneg _ (by norm_num)
  have h4 : t % 36 < 36 := Int.emod_lt_of_pos _ (by norm_num)
  have hdecomp : t = ((t / 36 % 36 ^ k) * 36 + t % 36) + 36 ^ (k + 1) * (t / 36 / 36 ^ k) := by
    have e1 : t % 36 = t - 36 * (t / 36) := by rw [Int.emod_def]
    have e2 : t / 36 % 36 ^ k = t / 36 - 36 ^ k * (t / 36 / 36 ^ k) := by rw [Int.emod_def]
    rw [e1, e2, pow_succ]
    ring
  calc t % 36 ^ (k + 1)
      = (((t / 36 % 36 ^ k) * 36 + t % 36) + 36 ^ (k + 1) * (t / 36 / 36 ^ k)) % 36 ^ (k + 1) := by
        rw [← hdecomp]
    _ = ((t / 36 % 36 ^ k) * 36 + t % 36) % 36 ^ (k + 1) := by
        rw [Int.add_mul_emod_self_left]
    _ = (t / 36 % 36 ^ k) * 36 + t % 36 := by
        apply Int.emod_eq_of_lt (by omega)
        rw [pow_succ]
        nlinarith

lemma b36fold_render : ∀ (k : Nat) (t : Int), b36fold (b36render k t) = t % 36 ^ k := by
  intro k
  induction k with
  | zero =>
    intro t
    rw [pow_zero, Int.emod_one]
    rfl
  | succ k ih =>
    intro t
    have h3 : 0 ≤ t % 36 := Int.emod_nonneg _ (by norm_num)
    have h4 : t % 36 < 36 := Int.emod_lt_of_pos _ (by norm_num)
    obtain ⟨hb, hv⟩ := b36val_dchar h3 h4
    rw [b36render, b36fold_append hb, hv, ih, int_emod_pow_succ]

/-! ## Membership facts for the nearest-prime wrappers -/

lemma find_primes_near_mem {data : List Nat} {fuel : Nat} {number : Int} {count : Nat}
    {dir : Direction} {l : List Int} (hgood : goodIndex data)
    (h : find_primes_near data fuel number count dir = some l) :
    ∀ x ∈ l, 1 < x ∧ is_prime x = true := by
  unfold find_primes_near at h
  split at h
  · unfold find_primes_near_traditional at h
    intro x hx
    rcases scan_trad_some_mem _ _ _ _ _ _ h x hx with hmem | hg
    · exact absurd hmem (List.not_mem_nil x)
    · exact hg
  · intro x hx
    rcases scan_pdb_some_mem _ _ _ _ _ _ h x hx with hmem | hg
    · exact absurd hmem (List.not_mem_nil x)
    · refine ⟨hg.1, ?_⟩
      rw [← oracle_eq_is_prime hgood x]
      exact hg.2

/-! ## Claim theorems -/

/-- Claim C1: for every integer `n` whose computed byte address lies in
`[0, len(index))` for the loaded, format-conforming index, the index-backed
oracle `is_prime_primesdb(n)` returns the same boolean as the trial-division
fallback `is_prime(n)`.  (The index blob itself is external data fetched at
startup; `goodIndex` is exactly the documented PrimesDB bit layout.) -/
theorem claim_C1 (data : List Nat) (n : Int) (hgood : goodIndex data)
    (_haddr0 : 0 ≤ pdb_address n) (_haddr1 : pdb_address n < (data.length : Int)) :
    is_prime_primesdb data n = is_prime n :=
  oracle_eq_is_prime hgood n

theorem claim_C1_witness :
    goodIndex [175] ∧ 0 ≤ pdb_address 23 ∧
      pdb_address 23 < (([175] : List Nat).length : Int) ∧
      is_prime_primesdb [175] 23 = is_prime 23 :=
  ⟨by decide, by decide, by decide, claim_C1 [175] 23 (by decide) (by decide) (by decide)⟩

lemma shift_and_eq_testBit (x k : Nat) : (((x >>> k) &&& 1) == 1) = Nat.testBit x k := by
  rw [Nat.shiftRight_eq_div_pow, Nat.and_one_is_mod, Nat.testBit_to_div_mod]
  by_cases h : x / 2 ^ k % 2 = 1 <;> simp [h]

/-- Claim C2: for every integer `n` that reaches the index consultation step
(`n ≥ 2`, not divisible by 2, 3 or 5, and not the early-returned `7`; such `n`
automatically ends in 1, 3, 7 or 9), the byte address computed by the code
equals `⌊(n/10 − 1) / 2⌋`, the bit offset computed by the code equals the
table `{1↦0, 3↦1, 7↦2, 9↦3}` of the last digit plus 4 when the decade `n/10`
is even, and, when that address is in range, the oracle answers prime exactly
when that bit of the addressed byte is set.  The final equivalence is stated
entirely in the claim's own terms - address `(n/10 − 1)/2`, the spelled-out
offset table and `Nat.testBit` - not via the model's internal helpers. -/
theorem claim_C2 (data : List Nat) (n : Int) (h2 : 2 ≤ n) (ho : n % 2 ≠ 0)
    (h3 : n % 3 ≠ 0) (h5 : n % 5 ≠ 0) (h7 : n ≠ 7) :
    pdb_address n = (n / 10 - 1) / 2 ∧
    pdb_bitpos n =
      (if n % 10 = 1 then 0 else if n % 10 = 3 then 1 else if n % 10 = 7 then 2 else 3) +
        (if (n / 10) % 2 = 0 then 4 else 0) ∧
    (0 ≤ (n / 10 - 1) / 2 → (n / 10 - 1) / 2 < (data.length : Int) →
      (is_prime_primesdb data n = true ↔
        Nat.testBit (data.getD ((n / 10 - 1) / 2).toNat 0)
          ((if n % 10 = 1 then 0 else if n % 10 = 3 then 1 else if n % 10 = 7 then 2 else 3) +
            (if (n / 10) % 2 = 0 then 4 else 0)) = true)) := by
  have haddr : pdb_address n = (n / 10 - 1) / 2 := by
    unfold pdb_address
    omega
  have hbp : pdb_bitpos n =
      (if n % 10 = 1 then 0 else if n % 10 = 3 then 1 else if n % 10 = 7 then 2 else 3) +
        (if (n / 10) % 2 = 0 then 4 else 0) := rfl
  refine ⟨haddr, hbp, ?_⟩
  intro ha0 ha1
  rw [← haddr, ← hbp, ← shift_and_eq_testBit]
  unfold is_prime_primesdb
  rw [if_neg (by omega), if_neg (by omega), if_neg (by omega), if_neg (by omega),
    if_neg (by rw [haddr]; omega)]

theorem claim_C2_witness :
    pdb_address 23 = ((23 : Int) / 10 - 1) / 2 ∧
    pdb_bitpos 23 =
      (if (23 : Int) % 10 = 1 then 0 else if (23 : Int) % 10 = 3 then 1
        else if (23 : Int) % 10 = 7 then 2 else 3) +
      (if ((23 : Int) / 10) % 2 = 0 then 4 else 0) ∧
    (is_prime_primesdb [175] 23 = true ↔
      Nat.testBit (([175] : List Nat).getD (((23 : Int) / 10 - 1) / 2).toNat 0)
        ((if (23 : Int) % 10 = 1 then 0 else if (23 : Int) % 10 = 3 then 1
          else if (23 : Int) % 10 = 7 then 2 else 3) +
          (if ((23 : Int) / 10) % 2 = 0 then 4 else 0)) = true) := by
  obtain ⟨ha, hb, hc⟩ :=
    claim_C2 [175] 23 (by decide) (by decide) (by decide) (by decide) (by decide)
  exact ⟨ha, hb, hc (by decide) (by decide)⟩

/-- Claim C3, counterexample: the claim says the upward scan stops once the
traversal crosses the `10^10` ceiling on the trial-division fallback scan as
well.  It does not: the fallback loop (lines 162-166) has no ceiling.
Starting at 9999999998 the ceiling is one step above the scan start, so a
ceiling-stopping scan finishes within 5 iterations (the index-backed loop
does, third conjunct); the fallback scan is instead still running after 5
iterations, three values past `10^10` (first conjunct), and `find_primes_near`
itself delegates numbers above `10^9` to that ceiling-free loop (second
conjunct). -/
theorem claim_C3_counterexample :
    find_primes_near_traditional 5 9999999998 1 .larger = none ∧
    find_primes_near [] 5 9999999998 1 .larger = none ∧
    scan_pdb_loop is_prime 5 9999999999 1 1 [] = some [] := by
  refine ⟨by decide, by decide, by decide⟩

/-- Claim C3, amended: on the index-backed scan (numbers up to the `10^9`
delegation threshold), the upward scan terminates because of the `10^10`
ceiling: fuel covering the distance to the ceiling always suffices, and every
returned value is below the ceiling.  The trial-division fallback scan has no
such ceiling (see the counterexample). -/
theorem claim_C3_amended (data : List Nat) (fuel : Nat) (number : Int) (count : Nat)
    (h9 : number ≤ 1000000000) (hfuel : (10000000000 - (number + 1)).toNat < fuel) :
    ∃ r, find_primes_near data fuel number count .larger = some r ∧
      ∀ x ∈ r, x < 10000000000 := by
  unfold find_primes_near
  rw [if_neg (by omega)]
  simp only [dirStart, dirStep]
  obtain ⟨r, hr⟩ := Option.isSome_iff_exists.mp
    (scan_pdb_up_isSome fuel (number + 1) count [] hfuel)
  exact ⟨r, hr, scan_pdb_up_some_lt fuel (number + 1) count [] r hr (by simp)⟩

theorem claim_C3_amended_witness :
    ∃ r, find_primes_near [] 10000000000 10 3 .larger = some r ∧
      ∀ x ∈ r, x < 10000000000 :=
  claim_C3_amended [] 10000000000 10 3 (by decide) (by decide)

/-- Membership in `intRange` from the interval bounds. -/
lemma mem_intRange {a b x : Int} (h1 : a ≤ x) (h2 : x < b) : x ∈ intRange a b := by
  unfold intRange
  rw [List.mem_map]
  refine ⟨(x - a).toNat, ?_, by omega⟩
  rw [List.mem_range]
  omega

/-- A scan started at or below the lower bound 1 exits at once with no hits,
whatever the fuel, direction or count. -/
lemma scan_pdb_low_start {p : Int → Bool} {fuel : Nat} {current : Int} {count : Nat}
    {step : Int} {res : List Int} (hcur : current ≤ 1)
    (h : scan_pdb_loop p fuel current count step [] = some res) : res = [] := by
  cases fuel with
  | zero => exact absurd h (by simp [scan_pdb_loop])
  | succ fuel =>
    rw [scan_pdb_loop, if_neg (fun hg => absurd hg.2.1 (by omega))] at h
    obtain rfl : ([] : List Int) = res := by injection h
    rfl

/-- Claim C4, counterexample: the claim fails at the reachable input
`number = 0` (token `"0"` encodes to 0, which is not prime, so
`find_closest_primes(0, count)` is genuinely called).  Both scans start at
`±1` and abort immediately on the `current > 1` guard, so the result is
empty - fewer than `count = 3` entries - even though the upward scan never
reached its `10^10` ceiling: the interval above 0 contains at least 3 primes
(2, 3, 5 already), so neither direction was "exhausted by its bound" in the
claim's sense. -/
theorem claim_C4_counterexample :
    find_closest_primes [175] 10000000000 0 3 = some [] ∧
    ([] : List (Int × Int)).length < 3 ∧
    3 ≤ ((intRange (0 + 1) 10000000000).filter is_prime).length := by
  refine ⟨by decide, by decide, ?_⟩
  have h2 : (2 : Int) ∈ (intRange (0 + 1) 10000000000).filter is_prime :=
    List.mem_filter.mpr ⟨mem_intRange (by decide) (by decide), by decide⟩
  have h3 : (3 : Int) ∈ (intRange (0 + 1) 10000000000).filter is_prime :=
    List.mem_filter.mpr ⟨mem_intRange (by decide) (by decide), by decide⟩
  have h5 : (5 : Int) ∈ (intRange (0 + 1) 10000000000).filter is_prime :=
    List.mem_filter.mpr ⟨mem_intRange (by decide) (by decide), by decide⟩
  have hsub : ([2, 3, 5] : List Int) ⊆ (intRange (0 + 1) 10000000000).filter is_prime := by
    intro x hx
    simp only [List.mem_cons, List.not_mem_nil, or_false] at hx
    rcases hx with rfl | rfl | rfl
    · exact h2
    · exact h3
    · exact h5
  exact (List.subperm_of_subset (by decide) hsub).length_le

/-- Claim C4, amended: every `(prime, distance)` entry returned by
`find_closest_primes` has a value above 1 that the trial-division test
accepts.  For `number ≥ 1` in the index-backed regime `number ≤ 10^9`, the
list is shorter than `count` only when both scan directions were exhausted by
their bounds, i.e. fewer than `count` oracle-primes exist in the whole upward
interval `(number, 10^10)` and in the whole downward interval `(1, number)`;
for `number > 10^9` the completed upward scan always fills `count`, so the
result is never short.  For `number ≤ 0` both scans abort at once on the
`current > 1` guard and the result is empty regardless of available primes
(the case the counterexample exhibits). -/
theorem claim_C4 (data : List Nat) (fuel : Nat) (number : Int) (count : Nat)
    (res : List (Int × Int)) (hgood : goodIndex data)
    (hres : find_closest_primes data fuel number count = some res) :
    (∀ pr ∈ res, 1 < pr.1 ∧ is_prime pr.1 = true) ∧
    (1 ≤ number → number ≤ 1000000000 → res.length < count →
      ((intRange (number + 1) 10000000000).filter is_prime).length < count ∧
      ((intRangeDown (number - 1)).filter is_prime).length < count) ∧
    (1000000000 < number → count ≤ res.length) ∧
    (number ≤ 0 → res = []) := by
  unfold find_closest_primes at hres
  cases hL : find_primes_near data fuel number count .larger with
  | none => rw [hL] at hres; exact absurd hres (by simp)
  | some larger =>
  cases hS : find_primes_near data fuel number count .smaller with
  | none => rw [hL, hS] at hres; exact absurd hres (by simp)
  | some smaller =>
  rw [hL, hS] at hres
  simp only [Option.some.injEq] at hres
  subst hres
  have hlenres :
      ((sortByDistance (larger.map (fun p => (p, p - number)) ++
        smaller.map (fun p => (p, number - p)))).take count).length =
      min count (larger.length + smaller.length) := by
    rw [List.length_take,
      (sortByDistance_perm (larger.map (fun p => (p, p - number)) ++
        smaller.map (fun p => (p, number - p)))).length_eq]
    simp
  refine ⟨?_, ?_, ?_, ?_⟩
  · intro pr hpr
    have h1 : pr ∈ sortByDistance (larger.map (fun p => (p, p - number)) ++
        smaller.map (fun p => (p, number - p))) := List.mem_of_mem_take hpr
    have h2 := (sortByDistance_perm _).mem_iff.mp h1
    rcases List.mem_append.mp h2 with hm | hm
    · obtain ⟨p, hp, rfl⟩ := List.mem_map.mp hm
      exact find_primes_near_mem hgood hL p hp
    · obtain ⟨p, hp, rfl⟩ := List.mem_map.mp hm
      exact find_primes_near_mem hgood hS p hp
  · intro hn1 h9 hshort
    have hLnd : scan_pdb_loop (is_prime_primesdb data) fuel (number + 1) count 1 [] =
        some larger := by
      unfold find_primes_near at hL
      rw [if_neg (by omega)] at hL
      simpa only [dirStart, dirStep] using hL
    have hSnd : scan_pdb_loop (is_prime_primesdb data) fuel (number - 1) count (-1) [] =
        some smaller := by
      unfold find_primes_near at hS
      rw [if_neg (by omega)] at hS
      simpa only [dirStart, dirStep] using hS
    have hcharL := scan_pdb_up_some_eq fuel count (number + 1) [] larger (by omega) hLnd
    have hcharS := scan_pdb_down_some_eq fuel count (number - 1) [] smaller (by omega) hSnd
    simp only [List.nil_append, List.length_nil, Nat.sub_zero] at hcharL hcharS
    have hfcL : (intRange (number + 1) 10000000000).filter (is_prime_primesdb data) =
        (intRange (number + 1) 10000000000).filter is_prime :=
      List.filter_congr (fun x _ => oracle_eq_is_prime hgood x)
    have hfcS : (intRangeDown (number - 1)).filter (is_prime_primesdb data) =
        (intRangeDown (number - 1)).filter is_prime :=
      List.filter_congr (fun x _ => oracle_eq_is_prime hgood x)
    rw [hfcL] at hcharL
    rw [hfcS] at hcharS
    have hlenL : larger.length =
        min count ((intRange (number + 1) 10000000000).filter is_prime).length := by
      rw [hcharL, List.length_take]
    have hlenS : smaller.length =
        min count ((intRangeDown (number - 1)).filter is_prime).length := by
      rw [hcharS, List.length_take]
    rw [hlenres] at hshort
    omega
  · intro hbig
    have hLd : scan_trad_loop is_prime fuel (number + 1) count 1 [] = some larger := by
      unfold find_primes_near at hL
      rw [if_pos hbig] at hL
      unfold find_primes_near_traditional at hL
      simpa only [dirStart, dirStep] using hL
    have hcnt := scan_trad_up_some_count fuel (number + 1) count [] larger (by omega) hLd
    rw [hlenres]
    omega
  · intro hle
    have hLz : larger = [] := by
      have hLnd : scan_pdb_loop (is_prime_primesdb data) fuel (number + 1) count 1 [] =
          some larger := by
        unfold find_primes_near at hL
        rw [if_neg (by omega)] at hL
        simpa only [dirStart, dirStep] using hL
      exact scan_pdb_low_start (by omega) hLnd
    have hSz : smaller = [] := by
      have hSnd : scan_pdb_loop (is_prime_primesdb data) fuel (number - 1) count (-1) [] =
          some smaller := by
        unfold find_primes_near at hS
        rw [if_neg (by omega)] at hS
        simpa only [dirStart, dirStep] using hS
      exact scan_pdb_low_start (by omega) hSnd
    subst hLz
    subst hSz
    exact List.take_nil

theorem claim_C4_witness :
    (∀ pr ∈ [((11 : Int), (1 : Int)), (13, 3), (7, 3)], 1 < pr.1 ∧ is_prime pr.1 = true) ∧
    (1 ≤ (10 : Int) → (10 : Int) ≤ 1000000000 →
      ([((11 : Int), (1 : Int)), (13, 3), (7, 3)].length < 3 →
        ((intRange ((10 : Int) + 1) 10000000000).filter is_prime).length < 3 ∧
        ((intRangeDown ((10 : Int) - 1)).filter is_prime).length < 3)) ∧
    (1000000000 < (10 : Int) → 3 ≤ [((11 : Int), (1 : Int)), (13, 3), (7, 3)].length) ∧
    ((10 : Int) ≤ 0 → [((11 : Int), (1 : Int)), (13, 3), (7, 3)] = []) :=
  claim_C4 [175] 10000000000 10 3 [(11, 1), (13, 3), (7, 3)] (by decide) (by decide)

/-- Claim C5: with a format-conforming index loaded, `find_closest_primes(10, 3)`
returns exactly the primes `{7, 11, 13}` at distances `{3, 1, 3}`, sorted by
ascending distance with 11 (distance 1) first; the stable sort keeps 13
before 7 among the distance-3 ties because upward candidates are merged
first. -/
theorem claim_C5 (data : List Nat) (hgood : goodIndex data) :
    find_closest_primes data 10000000000 10 3 = some [(11, 1), (13, 3), (7, 3)] := by
  have hor := oracle_eq_is_prime hgood
  have h10 : ¬(1000000000 : Int) < 10 := by decide
  unfold find_closest_primes find_primes_near
  rw [if_neg h10, if_neg h10, scan_pdb_congr hor, scan_pdb_congr hor]
  decide

theorem claim_C5_witness :
    find_closest_primes [175] 10000000000 10 3 = some [(11, 1), (13, 3), (7, 3)] :=
  claim_C5 [175] (by decide)

/-- Claim C6, counterexample: the round-trip claim fails for all-digit
originals with leading zeros.  `text_to_base36("00") = int("00") = 0` and
`base36_to_text(0, "00")` takes the all-digit branch returning `str(0) = "0"`,
not the claimed `"00"` (digits preserved, zero-padded to the original
length). -/
theorem claim_C6_counterexample :
    base36_to_text (text_to_base36 [48, 48]) [48, 48] ≠ [48, 48] := by decide

/-- Claim C6, amended: for every nonempty all-ASCII-alphanumeric original that
is not all digits (i.e. contains at least one letter, so both encode and
decode take the base-36 branch), `base36_to_text(text_to_base36(original),
original)` is exactly `original` with letters uppercased and digits preserved;
the length already matches, so the zero-padding is vacuous.  All-digit
originals instead round-trip through `str(int(original))`, which drops
leading zeros. -/
theorem claim_C6_amended (o : List Nat) (hne : o ≠ [])
    (hall : ∀ c ∈ o, isAsciiAlnum c = true)
    (hletter : ∃ c ∈ o, isAsciiDigit c = false) :
    base36_to_text (text_to_base36 o) o = o.map upperChar := by
  obtain ⟨c0, hc0, hc0d⟩ := hletter
  have hd : py_isdigit o = false := py_isdigit_false hc0 hc0d
  have hallb : o.all isAsciiAlnum = true := List.all_eq_true.mpr hall
  rw [text_to_base36_alnum hne hd hallb, base36_to_text_alnum hne hd hallb,
    alnum_branch_eq_render hne hall]
  have hmap : ∀ x ∈ o.map upperChar, isB36 x := by
    intro x hx
    obtain ⟨c, hc, rfl⟩ := List.mem_map.mp hx
    exact upperChar_b36 (hall c hc)
  have hlen : (o.map upperChar).length = o.length := List.length_map o upperChar
  rw [← hlen]
  exact b36render_fold _ hmap

theorem claim_C6_amended_witness :
    base36_to_text (text_to_base36 [97, 98]) [97, 98] = [97, 98].map upperChar :=
  claim_C6_amended [97, 98] (by decide) (by decide) (by decide)

/-- Claim C7: in the perturbation branch of decode, every character of the
original whose code point lies in the CJK Unified Ideographs block
0x4E00-0x9FFF is mapped, for every target number, to a character whose code
point is still inside that block: the offset `(number mod 100) - 50` is
applied and the result is wrapped back into the block at both boundaries. -/
theorem claim_C7 (number : Int) (o : List Nat) (i : Nat) (hne : o ≠ [])
    (hd : py_isdigit o = false) (hall : o.all isAsciiAlnum = false)
    (hi : i < o.length) (hlo : 0x4E00 ≤ o.getD i 0) (hhi : o.getD i 0 ≤ 0x9FFF) :
    0x4E00 ≤ (base36_to_text number o).getD i 0 ∧
      (base36_to_text number o).getD i 0 ≤ 0x9FFF := by
  rw [base36_to_text_perturb hne hd hall, getD_map_of_lt _ _ _ 0 0 hi]
  exact perturb_char_cjk number hlo hhi

theorem claim_C7_witness :
    0x4E00 ≤ (base36_to_text 97 [20013]).getD 0 0 ∧
      (base36_to_text 97 [20013]).getD 0 0 ≤ 0x9FFF :=
  claim_C7 97 [20013] 0 (by decide) (by decide) (by decide) (by decide) (by decide)
    (by decide)

/-- Claim C8: the perturbation branch never fails: it always produces one
output character per input character (processing continues over the whole
text), and at every position whose perturbed code point cannot be rendered by
`chr` (outside `0..0x10FFFF`) the original character is kept unchanged. -/
theorem claim_C8 (number : Int) (o : List Nat) (hne : o ≠ [])
    (hd : py_isdigit o = false) (hall : o.all isAsciiAlnum = false) :
    (base36_to_text number o).length = o.length ∧
    (∀ i, i < o.length →
      (perturb_code number (o.getD i 0) < 0 ∨ 0x10FFFF < perturb_code number (o.getD i 0)) →
      (base36_to_text number o).getD i 0 = o.getD i 0) := by
  rw [base36_to_text_perturb hne hd hall]
  refine ⟨List.length_map o (perturb_char number), ?_⟩
  intro i hi hbad
  rw [getD_map_of_lt _ _ _ 0 0 hi]
  exact perturb_char_invalid hbad

theorem claim_C8_witness :
    (base36_to_text 19 [1114111]).length = 1 ∧
      (base36_to_text 19 [1114111]).getD 0 0 = 1114111 := by
  obtain ⟨hl, hk⟩ := claim_C8 19 [1114111] (by decide) (by decide) (by decide)
  exact ⟨hl, hk 0 (by decide) (by decide)⟩

/-- Claim C9, counterexample: the sampler does not always produce
`min(maxCombinations, 10)` combinations - for an empty token list it returns
an empty list: `generate_random_combinations([], 12)` yields 0 combinations,
not `min(12, 10) = 10`. -/
theorem claim_C9_counterexample :
    (generate_random_combinations (fun _ _ _ => ⟨0, [], 0, 43⟩) [] 12).length = 0 ∧
      (0 : Nat) ≠ min 12 10 :=
  ⟨rfl, by decide⟩

/-- Claim C9, amended: for every nonempty token list, every choice of random
outcomes and every `maxCombinations`, the sampler produces exactly
`min(maxCombinations, 10)` combinations; in particular 12 is capped at 10.
The empty token list short-circuits to zero combinations. -/
theorem claim_C9_amended (pick : Nat → Nat → List Replacement → Replacement)
    (words : List WordInfo) (max_combinations : Nat) (hne : words ≠ []) :
    (generate_random_combinations pick words max_combinations).length =
      min max_combinations 10 := by
  unfold generate_random_combinations
  rw [if_neg (by simp [hne])]
  rw [List.length_map, List.length_range]

theorem claim_C9_amended_witness :
    (generate_random_combinations (fun _ _ _ => ⟨0, [], 0, 43⟩)
      [⟨[50], 2, true, []⟩] 12).length = min 12 10 :=
  claim_C9_amended _ _ 12 (by simp)

/-- Claim C10: for every nonempty all-ASCII-alphanumeric original and
nonnegative target number, the alphanumeric branch of decode returns exactly
`valid_chars` characters (the count of alphanumeric characters of the
original, here its length), and re-encoding its output with the base-36 fold
gives `number mod 36^valid_chars`: only the lowest-order base-36 digits are
rendered, higher digits are silently truncated.  The third conjunct records
that `base36_to_text` takes this branch whenever the original is not all
digits. -/
theorem claim_C10 (number : Int) (o : List Nat) (hne : o ≠ [])
    (hall : ∀ c ∈ o, isAsciiAlnum c = true) (_hnum : 0 ≤ number) :
    (alnum_branch number o).length = countValid o ∧
    b36fold (alnum_branch number o) = number % 36 ^ countValid o ∧
    (py_isdigit o = false → base36_to_text number o = alnum_branch number o) := by
  rw [alnum_branch_eq_render hne hall, countValid_eq_length hall]
  refine ⟨b36render_length _ _, b36fold_render _ _, ?_⟩
  intro hd
  rw [base36_to_text_alnum hne hd (List.all_eq_true.mpr hall),
    alnum_branch_eq_render hne hall]

theorem claim_C10_witness :
    (alnum_branch 6487 [65, 66]).length = countValid [65, 66] ∧
    b36fold (alnum_branch 6487 [65, 66]) = 6487 % 36 ^ countValid [65, 66] ∧
    base36_to_text 6487 [65, 66] = alnum_branch 6487 [65, 66] := by
  obtain ⟨h1, h2, h3⟩ := claim_C10 6487 [65, 66] (by decide) (by decide) (by decide)
  exact ⟨h1, h2, h3 (by decide)⟩

example : is_prime 13 = true := by decide
example : is_prime 25 = false := by decide
example : is_prime_primesdb [175] 23 = true := by decide
example : is_prime_primesdb [175] 27 = false := by decide
example : is_prime_primesdb [] 23 = true := by decide
example : goodIndex [175] := by decide
example : scan_pdb_loop is_prime 10000000000 11 3 1 [] = some [11, 13, 17] := by decide
example : find_primes_near_traditional 5 9999999998 1 .larger = none := by decide
example : text_to_base36 [49, 90] = 71 := by decide
example : text_to_base36 [49, 50, 51] = 123 := by decide
example : base36_to_text (text_to_base36 [48, 48]) [48, 48] = [48] := by decide
example : base36_to_text 71 [97, 98] = [49, 90] := by decide
example : base36_to_text 6487 [65, 66] = [48, 55] := by decide
